import Mathlib

/-!
Verification development for the SqueezeIt image-compression page.

The repository has two source units:
* an application file holding the types (`ImageFile`, `CompressionSettings`),
  the orchestrator (`processOne`, `handleFiles`, `removeImage`) and the
  compressor (`compressImage`, with the quality-stepping inner loop
  `attemptCompression` and the resize logic), and
* `src/services/geminiService.ts` holding the analyzer (`analyzeImage`).

Numeric conventions of the embedding: encoder qualities are exact rationals
(the source's float literals 0.92, 0.08, 0.1 and their differences are exact
enough that no comparison in the loop is decided by float rounding), blob
sizes are natural numbers of bytes, and the size test divides by 1024 in ℚ,
mirroring `blob.size / 1024 <= targetSizeKb`.
-/

namespace Squeeze

/-- Starting encoder quality (source: `let quality = 0.92`). -/
def qualityStart : ℚ := 0.92

/-- Fixed quality decrement per retry (source: `const step = 0.08`). -/
def qualityStep : ℚ := 0.08

/-- Quality floor (source: `const minQuality = 0.1`). -/
def minQuality : ℚ := 0.1

/-- An encoder: for a quality level, the byte size of the blob produced by
`canvas.toBlob`, or `none` when the callback receives a null blob. -/
abbrev Encoder := ℚ → Option ℕ

/-- The recursive quality loop of `compressImage` (`attemptCompression` in the
source): encode at quality `q`; a null blob rejects with the message
`Compression failed`; otherwise stop and resolve the blob when its size in KB
is at or below the target or the quality is at or below the floor, and retry
at `q - step` otherwise.  The result carries the final quality and the size of
the resolved blob. -/
def attemptCompression (enc : Encoder) (targetSizeKb : ℚ) (q : ℚ) :
    Except String (ℚ × ℕ) :=
  match enc q with
  | none => Except.error "Compression failed"
  | some size =>
    if (size : ℚ) / 1024 ≤ targetSizeKb ∨ q ≤ minQuality then Except.ok (q, size)
    else attemptCompression enc targetSizeKb (q - qualityStep)
termination_by (Int.ceil (100 * q)).toNat
decreasing_by
  rename_i h
  push_neg at h
  have hq : minQuality < q := h.2
  have h10 : (10 : ℚ) < 100 * q := by
    have := hq
    rw [minQuality] at this
    nlinarith
  have hceil : (10 : ℤ) < Int.ceil (100 * q) := by
    refine Int.lt_ceil.mpr ?hlt
    exact_mod_cast h10
  have hsub : Int.ceil (100 * (q - qualityStep)) = Int.ceil (100 * q) - 8 := by
    have heq : 100 * (q - qualityStep) = 100 * q - ((8 : ℤ) : ℚ) := by
      rw [qualityStep]; push_cast; ring
    rw [heq, Int.ceil_sub_int]
  omega

/-- The list of quality levels at which the loop performs encode attempts, in
order; same recursion (and same stopping tests) as `attemptCompression`. -/
def attemptQualities (enc : Encoder) (targetSizeKb : ℚ) (q : ℚ) : List ℚ :=
  match enc q with
  | none => [q]
  | some size =>
    if (size : ℚ) / 1024 ≤ targetSizeKb ∨ q ≤ minQuality then [q]
    else q :: attemptQualities enc targetSizeKb (q - qualityStep)
termination_by (Int.ceil (100 * q)).toNat
decreasing_by
  rename_i h
  push_neg at h
  have hq : minQuality < q := h.2
  have h10 : (10 : ℚ) < 100 * q := by
    have := hq
    rw [minQuality] at this
    nlinarith
  have hceil : (10 : ℤ) < Int.ceil (100 * q) := by
    refine Int.lt_ceil.mpr ?hlt
    exact_mod_cast h10
  have hsub : Int.ceil (100 * (q - qualityStep)) = Int.ceil (100 * q) - 8 := by
    have heq : 100 * (q - qualityStep) = 100 * q - ((8 : ℤ) : ℚ) := by
      rw [qualityStep]; push_cast; ring
    rw [heq, Int.ceil_sub_int]
  omega

/-- Raster dimensions handed to the canvas and to `drawImage`. -/
structure Dimensions where
  width : ℚ
  height : ℚ
deriving DecidableEq

/-- The resize step of `compressImage`: when the intrinsic width exceeds
`maxWidth`, the height is rescaled by `maxWidth / width` (computed with the
original width) and the width is clamped to `maxWidth`; otherwise both
dimensions are kept. -/
def resizeDimensions (imgWidth imgHeight maxWidth : ℚ) : Dimensions :=
  if maxWidth < imgWidth then
    { width := maxWidth, height := maxWidth / imgWidth * imgHeight }
  else
    { width := imgWidth, height := imgHeight }

/-- Default target size of `compressImage` (`targetSizeKb: number = 800`). -/
def compressImageDefaultTarget : ℚ := 800

/-- Default maximum width of `compressImage` (`maxWidth: number = 2560`). -/
def compressImageDefaultMaxWidth : ℚ := 2560

/-- Compression settings, as in the source's `CompressionSettings` type. -/
structure CompressionSettings where
  targetSizeKb : ℚ
  maxWidth : ℚ
deriving DecidableEq

/-- The settings `compressImage` effectively runs with when invoked from
`processOne`: the call is `compressImage(image.original, 800)`, so the target
is 800 and the omitted `maxWidth` takes the declared default. -/
def processOneCompressionSettings : CompressionSettings :=
  { targetSizeKb := 800, maxWidth := compressImageDefaultMaxWidth }

/-- The error messages thrown inside `compressImage`. -/
inductive CompressError where
  | canvasContextFailed
  | compressionFailed
  | imageLoadError
  | fileReadError
deriving DecidableEq

/-- The message carried by each rejection of `compressImage`. -/
def CompressError.message : CompressError → String
  | .canvasContextFailed => "Canvas context failed"
  | .compressionFailed => "Compression failed"
  | .imageLoadError => "Image load error"
  | .fileReadError => "File read error"

/-! ## Analyzer (`src/services/geminiService.ts`) -/

/-- The string returned by the `catch` branch of `analyzeImage`. -/
def analysisFallback : String := "AI analysis could not be completed."

/-- The string substituted when the model response has no text
(`response.text || "No analysis available."`; in JS an absent or empty
`response.text` is falsy). -/
def noAnalysisText : String := "No analysis available."

/-- `analyzeImage`, as a function of the outcome of the Gemini call it wraps:
`Except.ok t` is a response whose `text` field is `t` (possibly absent),
`Except.error e` is any exception thrown inside the `try` block.  The function
is total: it always resolves with a string, never rejects. -/
def analyzeImage (callResult : Except String (Option String)) : String :=
  match callResult with
  | .ok (some t) => if t = "" then noAnalysisText else t
  | .ok none => noAnalysisText
  | .error _ => analysisFallback

/-! ## Orchestrator (`App.tsx` part of the application file)

The orchestrator's per-item record is `ImageFile`.  Blobs are modelled as
byte lists, and object URLs as natural-number tokens handed out by a counter,
so that creations and revocations of `URL.createObjectURL` /
`URL.revokeObjectURL` can be accounted for exactly. -/

/-- Item lifecycle status (`'pending' | 'compressing' | 'done' | 'error'`). -/
inductive Status where
  | pending
  | compressing
  | done
  | error
deriving DecidableEq

/-- A blob is its byte content. -/
abbrev Blob := List ℕ

/-- The `ImageFile` record of the source (the immutable `original : File` is
represented only through `originalSize`). -/
structure ImageFile where
  id : String
  compressed : Option Blob
  originalUrl : ℕ
  compressedUrl : Option ℕ
  status : Status
  originalSize : ℕ
  compressedSize : Option ℕ
  error : Option String
  aiAnalysis : Option String
deriving DecidableEq

/-- The item created by `handleFiles` for an accepted file: status `pending`,
original URL freshly created, no compressed artifacts yet. -/
def newImage (id : String) (url : ℕ) (size : ℕ) : ImageFile :=
  { id := id
    compressed := none
    originalUrl := url
    compressedUrl := none
    status := Status.pending
    originalSize := size
    compressedSize := none
    error := none
    aiAnalysis := none }

/-- The per-item update applied by `processOne` before compression starts:
`{ ...img, status: 'compressing' }`. -/
def setCompressing (img : ImageFile) : ImageFile :=
  { img with status := Status.compressing }

/-- The per-item update applied on compression success:
`{ ...img, status: 'done', compressed, compressedUrl, compressedSize }`. -/
def setDone (img : ImageFile) (blob : Blob) (url : ℕ) : ImageFile :=
  { img with
    status := Status.done
    compressed := some blob
    compressedUrl := some url
    compressedSize := some blob.length }

/-- The per-item update applied in the `catch` branch:
`{ ...img, status: 'error', error: err.message }`. -/
def setError (img : ImageFile) (msg : String) : ImageFile :=
  { img with status := Status.error, error := some msg }

/-- The per-item update applied when the analyzer promise resolves:
`{ ...img, aiAnalysis: aiResponse }`. -/
def setAnalysis (img : ImageFile) (text : String) : ImageFile :=
  { img with aiAnalysis := some text }

/-- The application state: the `images` array, the `processingQueue` guard
set, plus exact accounting of object-URL creations and revocations
(`createdUrls` / `revokedUrls`, with `nextUrl` the fresh-URL counter) and an
instrumentation counter `compressStarts` counting invocations of
`compressImage`. -/
structure AppState where
  images : List ImageFile
  processingQueue : Finset String
  createdUrls : List ℕ
  revokedUrls : List ℕ
  nextUrl : ℕ
  compressStarts : ℕ
deriving DecidableEq

/-- The empty initial state. -/
def initialState : AppState :=
  { images := []
    processingQueue := ∅
    createdUrls := []
    revokedUrls := []
    nextUrl := 0
    compressStarts := 0 }

/-- `URL.createObjectURL`: hand out a fresh URL token and record it. -/
def createUrl (s : AppState) : AppState × ℕ :=
  ({ s with
      nextUrl := s.nextUrl + 1
      createdUrls := s.nextUrl :: s.createdUrls },
   s.nextUrl)

/-- `URL.revokeObjectURL`: record the revocation. -/
def revokeUrl (s : AppState) (u : ℕ) : AppState :=
  { s with revokedUrls := u :: s.revokedUrls }

/-- `handleFiles`, restricted to one accepted file: create the original
object URL and append a fresh `pending` item. -/
def handleFilesOne (s : AppState) (id : String) (size : ℕ) : AppState :=
  let c := createUrl s
  { c.1 with images := c.1.images ++ [newImage id c.2 size] }

/-- The synchronous prefix of `processOne`, up to and including the call of
`compressImage`: the guard check (`if (processingQueue.current.has(id)) return`),
the guard insertion, the `compressing` status update, and the start of
compression (counted by `compressStarts`). -/
def processOneStart (s : AppState) (id : String) : AppState :=
  if id ∈ s.processingQueue then s
  else
    { s with
      processingQueue := insert id s.processingQueue
      images := s.images.map fun img =>
        if img.id == id then setCompressing img else img
      compressStarts := s.compressStarts + 1 }

/-- The resumption of `processOne` when `compressImage` resolves with `blob`:
create the compressed object URL (this happens unconditionally, before the
state update), apply the `done` update to the matching item, and run the
`finally` clause deleting the id from the guard set.  (The analyzer prompt is
fired here too; its resolution is the separate event `analysisResolve`.) -/
def processOneFinishSuccess (s : AppState) (id : String) (blob : Blob) : AppState :=
  let c := createUrl s
  { c.1 with
    images := c.1.images.map fun img =>
      if img.id == id then setDone img blob c.2 else img
    processingQueue := c.1.processingQueue.erase id }

/-- The resumption of `processOne` when `compressImage` rejects with `msg`:
the `catch` branch applies the `error` update, and the `finally` clause
deletes the id from the guard set. -/
def processOneFinishFailure (s : AppState) (id : String) (msg : String) : AppState :=
  { s with
    images := s.images.map fun img =>
      if img.id == id then setError img msg else img
    processingQueue := s.processingQueue.erase id }

/-- The event fired when the `analyzeImage(...).then(...)` callback runs:
store the resolved text on the matching item. -/
def analysisResolve (s : AppState) (id : String) (text : String) : AppState :=
  { s with
    images := s.images.map fun img =>
      if img.id == id then setAnalysis img text else img }

/-- `removeImage`: find the item, revoke its original URL and (when present)
its compressed URL, and filter it out of the collection. -/
def removeImage (s : AppState) (id : String) : AppState :=
  match s.images.find? (fun img => img.id == id) with
  | none => { s with images := s.images.filter fun img => !(img.id == id) }
  | some removed =>
    let s1 := revokeUrl s removed.originalUrl
    let s2 := match removed.compressedUrl with
      | some u => revokeUrl s1 u
      | none => s1
    { s2 with images := s.images.filter fun img => !(img.id == id) }

/-- Look an item up by id, as the source does with `prev.find(...)`. -/
def findImage (s : AppState) (id : String) : Option ImageFile :=
  s.images.find? (fun img => img.id == id)

/-- The states a single item can be in over its lifecycle, generated by the
updates the orchestrator actually performs in the order it performs them: an
item is created `pending` by `handleFiles`; `processOne` moves a `pending`
item to `compressing`; a `compressing` item is finished `done` or `error`;
the analyzer update can land at any point after creation. -/
inductive ReachableItem : ImageFile → Prop where
  | new (id : String) (url size : ℕ) : ReachableItem (newImage id url size)
  | start (img : ImageFile) : ReachableItem img → img.status = Status.pending →
      ReachableItem (setCompressing img)
  | finishSuccess (img : ImageFile) (blob : Blob) (url : ℕ) :
      ReachableItem img → img.status = Status.compressing →
      ReachableItem (setDone img blob url)
  | finishFailure (img : ImageFile) (msg : String) :
      ReachableItem img → img.status = Status.compressing →
      ReachableItem (setError img msg)
  | analysis (img : ImageFile) (text : String) : ReachableItem img →
      ReachableItem (setAnalysis img text)

/-- An encoder whose blobs are always 921600 bytes (900 KB), above an 800 KB
target at every quality; it drives the loop all the way to the floor. -/
def bigEncoder : Encoder := fun _ => some 921600

/-- A run of the orchestrator on one item whose compression succeeds and whose
analyzer call throws internally: the file is accepted, processing starts,
compression resolves with a 2-byte blob, and the analyzer promise resolves
with the string `analyzeImage` returns after catching the exception. -/
def analyzerFailureTrace : AppState :=
  analysisResolve
    (processOneFinishSuccess
      (processOneStart (handleFilesOne initialState "a" 5000) "a") "a" [7, 7])
    "a" (analyzeImage (Except.error "network down"))

/-- A run in which the item is removed while its compression is still in
flight, after which the compression resolves: the original URL (token 0) is
revoked by the removal, and the compressed URL (token 1) is created by the
late resolution with no item left to hold it. -/
def removedMidFlightTrace : AppState :=
  processOneFinishSuccess
    (removeImage (processOneStart (handleFilesOne initialState "a" 100) "a") "a")
    "a" [1, 2, 3]

/-! ## Lemmas about the compression loop -/

theorem attemptCompression_stop (enc : Encoder) (target q : ℚ) (size : ℕ)
    (henc : enc q = some size) (h : (size : ℚ) / 1024 ≤ target ∨ q ≤ minQuality) :
    attemptCompression enc target q = Except.ok (q, size) := by
  rw [attemptCompression, henc]
  simp [h]

theorem attemptCompression_go (enc : Encoder) (target q : ℚ) (size : ℕ)
    (henc : enc q = some size) (h1 : ¬((size : ℚ) / 1024 ≤ target))
    (h2 : ¬(q ≤ minQuality)) :
    attemptCompression enc target q
      = attemptCompression enc target (q - qualityStep) := by
  rw [attemptCompression, henc]
  simp [h1, h2]

theorem attemptQualities_stop (enc : Encoder) (target q : ℚ) (size : ℕ)
    (henc : enc q = some size) (h : (size : ℚ) / 1024 ≤ target ∨ q ≤ minQuality) :
    attemptQualities enc target q = [q] := by
  rw [attemptQualities, henc]
  simp [h]

theorem attemptQualities_go (enc : Encoder) (target q : ℚ) (size : ℕ)
    (henc : enc q = some size) (h1 : ¬((size : ℚ) / 1024 ≤ target))
    (h2 : ¬(q ≤ minQuality)) :
    attemptQualities enc target q
      = q :: attemptQualities enc target (q - qualityStep) := by
  rw [attemptQualities, henc]
  simp [h1, h2]

/-- Full characterization of the loop result when the encoder always yields a
blob: the loop resolves (never rejects) with the blob of the first quality, in
the descending arithmetic sequence from the start, that meets the size target
or sits at or below the floor; every earlier quality met neither test. -/
theorem attemptCompression_spec (enc : Encoder) (target : ℚ)
    (henc : ∀ q, (enc q).isSome) (q0 : ℚ) :
    ∃ (n : ℕ) (sz : ℕ),
      attemptCompression enc target q0
        = Except.ok (q0 - (n : ℚ) * qualityStep, sz) ∧
      enc (q0 - (n : ℚ) * qualityStep) = some sz ∧
      ((sz : ℚ) / 1024 ≤ target ∨ q0 - (n : ℚ) * qualityStep ≤ minQuality) ∧
      ∀ k : ℕ, k < n → ∀ s : ℕ, enc (q0 - (k : ℚ) * qualityStep) = some s →
        ¬((s : ℚ) / 1024 ≤ target) ∧ ¬(q0 - (k : ℚ) * qualityStep ≤ minQuality) := by
  induction q0 using attemptCompression.induct enc target with
  | case1 q hnone =>
    have hcontra := henc q
    rw [hnone] at hcontra
    simp at hcontra
  | case2 q size hsome hstop =>
    refine ⟨0, size, ?_, ?_, ?_, ?_⟩
    · rw [Nat.cast_zero, zero_mul, sub_zero]
      exact attemptCompression_stop enc target q size hsome hstop
    · rwa [Nat.cast_zero, zero_mul, sub_zero]
    · rwa [Nat.cast_zero, zero_mul, sub_zero]
    · intro k hk
      exact absurd hk (Nat.not_lt_zero k)
  | case3 q size hsome hstop ih =>
    obtain ⟨n, sz, h1, h2, h3, h4⟩ := ih
    have hshift : q - qualityStep - (n : ℚ) * qualityStep
        = q - ((n + 1 : ℕ) : ℚ) * qualityStep := by
      push_cast
      ring
    push_neg at hstop
    refine ⟨n + 1, sz, ?_, ?_, ?_, ?_⟩
    · rw [attemptCompression_go enc target q size hsome (not_le.mpr hstop.1)
        (not_le.mpr hstop.2), h1, hshift]
    · rwa [hshift] at h2
    · rwa [hshift] at h3
    · intro k hk s hs
      match k with
      | 0 =>
        rw [Nat.cast_zero, zero_mul, sub_zero] at hs
        rw [hsome] at hs
        have hsz : size = s := by
          exact Option.some.inj hs
        rw [Nat.cast_zero, zero_mul, sub_zero]
        subst hsz
        exact ⟨not_le.mpr hstop.1, not_le.mpr hstop.2⟩
      | j + 1 =>
        have hjshift : q - ((j + 1 : ℕ) : ℚ) * qualityStep
            = q - qualityStep - (j : ℚ) * qualityStep := by
          push_cast
          ring
        rw [hjshift] at hs ⊢
        exact h4 j (by omega) s hs

/-- The number of encode attempts from quality `q0` is at most
`⌈(q0 - floor) / step⌉ + 1`. -/
theorem attemptQualities_length_le (enc : Encoder) (target : ℚ) (q0 : ℚ) :
    (attemptQualities enc target q0).length
      ≤ (Int.ceil ((q0 - minQuality) / qualityStep)).toNat + 1 := by
  induction q0 using attemptQualities.induct enc target with
  | case1 q hnone =>
    rw [attemptQualities, hnone]
    simp
  | case2 q size hsome hstop =>
    rw [attemptQualities_stop enc target q size hsome hstop]
    simp
  | case3 q size hsome hstop ih =>
    push_neg at hstop
    rw [attemptQualities_go enc target q size hsome (not_le.mpr hstop.1)
      (not_le.mpr hstop.2)]
    rw [List.length_cons]
    have hpos : (0 : ℚ) < (q - minQuality) / qualityStep := by
      have hq := hstop.2
      rw [minQuality] at hq
      rw [minQuality, qualityStep]
      have hnum : (0 : ℚ) < q - 0.1 := by linarith
      positivity
    have hceil1 : (1 : ℤ) ≤ Int.ceil ((q - minQuality) / qualityStep) :=
      Int.ceil_pos.mpr hpos
    have heq : (q - qualityStep - minQuality) / qualityStep
        = (q - minQuality) / qualityStep - 1 := by
      rw [qualityStep, minQuality]
      norm_num
      ring
    have hceil2 : Int.ceil ((q - qualityStep - minQuality) / qualityStep)
        = Int.ceil ((q - minQuality) / qualityStep) - 1 := by
      rw [heq, Int.ceil_sub_one]
    omega

/-- Every quality the loop attempts lies on the descending arithmetic
sequence from the starting quality, and any attempt other than the very first
happens only because the previous quality was still above the floor. -/
theorem attemptQualities_mem (enc : Encoder) (target q0 : ℚ) (q' : ℚ)
    (hmem : q' ∈ attemptQualities enc target q0) :
    ∃ k : ℕ, q' = q0 - (k : ℚ) * qualityStep
      ∧ (k = 0 ∨ minQuality < q' + qualityStep) := by
  induction q0 using attemptQualities.induct enc target with
  | case1 q hnone =>
    rw [attemptQualities, hnone] at hmem
    simp at hmem
    exact ⟨0, by rw [hmem]; push_cast; ring, Or.inl rfl⟩
  | case2 q size hsome hstop =>
    rw [attemptQualities_stop enc target q size hsome hstop] at hmem
    simp at hmem
    exact ⟨0, by rw [hmem]; push_cast; ring, Or.inl rfl⟩
  | case3 q size hsome hstop ih =>
    push_neg at hstop
    rw [attemptQualities_go enc target q size hsome (not_le.mpr hstop.1)
      (not_le.mpr hstop.2)] at hmem
    rcases List.mem_cons.mp hmem with hhead | htail
    · exact ⟨0, by rw [hhead]; push_cast; ring, Or.inl rfl⟩
    · obtain ⟨k, hk1, hk2⟩ := ih htail
      refine ⟨k + 1, by rw [hk1]; push_cast; ring, Or.inr ?_⟩
      rcases hk2 with hzero | hlt
      · subst hzero
        rw [hk1]
        simp
        exact hstop.2
      · exact hlt

/-! ## Claim theorems: the compressor -/

/-- C1: for every input image (encoder) and target size, the loop starts at
quality 0.92, decreases by 0.08 per retry, and resolves with the first blob
whose size in KB is at or below the target or whose quality is at or below the
0.10 floor, whichever comes first; in particular it resolves (is never an
error) even when the floor stop leaves the size above the target. -/
theorem compression_loop_first_stop (enc : Encoder) (target : ℚ)
    (henc : ∀ q, (enc q).isSome) :
    ∃ (n : ℕ) (sz : ℕ),
      attemptCompression enc target qualityStart
        = Except.ok (qualityStart - (n : ℚ) * qualityStep, sz) ∧
      enc (qualityStart - (n : ℚ) * qualityStep) = some sz ∧
      ((sz : ℚ) / 1024 ≤ target ∨ qualityStart - (n : ℚ) * qualityStep ≤ minQuality) ∧
      ∀ k : ℕ, k < n → ∀ s : ℕ, enc (qualityStart - (k : ℚ) * qualityStep) = some s →
        ¬((s : ℚ) / 1024 ≤ target) ∧ ¬(qualityStart - (k : ℚ) * qualityStep ≤ minQuality) :=
  attemptCompression_spec enc target henc qualityStart

/-- Witness for C1: an encoder already under an 800 KB target at the first
attempt. -/
theorem compression_loop_first_stop_witness :
    ∃ (n : ℕ) (sz : ℕ),
      attemptCompression (fun _ => some 1024) 800 qualityStart
        = Except.ok (qualityStart - (n : ℚ) * qualityStep, sz) ∧
      (fun _ : ℚ => some 1024) (qualityStart - (n : ℚ) * qualityStep) = some sz ∧
      (((sz : ℚ) / 1024 ≤ 800 ∨ qualityStart - (n : ℚ) * qualityStep ≤ minQuality)) ∧
      ∀ k : ℕ, k < n → ∀ s : ℕ,
        (fun _ : ℚ => some 1024) (qualityStart - (k : ℚ) * qualityStep) = some s →
        ¬((s : ℚ) / 1024 ≤ 800) ∧ ¬(qualityStart - (k : ℚ) * qualityStep ≤ minQuality) :=
  compression_loop_first_stop (fun _ => some 1024) 800 (fun _ => rfl)

/-- C2: the raster drawn to the canvas keeps the intrinsic dimensions when the
width is within the bound, and otherwise has width exactly `maxWidth` with the
height scaled by the same `maxWidth / width` ratio. -/
theorem resize_aspect_preserving (w h maxW : ℚ) :
    (maxW < w → resizeDimensions w h maxW
      = { width := maxW, height := maxW / w * h }) ∧
    (w ≤ maxW → resizeDimensions w h maxW = { width := w, height := h }) := by
  constructor
  · intro hlt
    simp [resizeDimensions, hlt]
  · intro hle
    simp [resizeDimensions, not_lt.mpr hle]

/-- Witness for C2: a 3000×2000 image under bound 800 becomes 800×(1600/3); a
500×400 image is untouched. -/
theorem resize_aspect_preserving_witness :
    resizeDimensions 3000 2000 800 = { width := 800, height := 1600 / 3 } ∧
    resizeDimensions 500 400 800 = { width := 500, height := 400 } := by
  constructor
  · rw [(resize_aspect_preserving 3000 2000 800).1 (by norm_num)]
    norm_num
  · exact (resize_aspect_preserving 500 400 800).2 (by norm_num)

/-- C3 counterexample: `processOne` invokes the compressor with
`compressImage(image.original, 800)`, so the effective maximum dimension is
the compressor's own default 2560, not 800. -/
theorem processOne_settings_counterexample :
    processOneCompressionSettings.maxWidth ≠ 800 := by
  norm_num [processOneCompressionSettings, compressImageDefaultMaxWidth]

/-- C3 (amended): the compressor is invoked from `processOne` with target size
800 KB and effective max dimension 2560px (the compressor's declared default,
since the caller omits the argument); consequently a 1000px-wide image, which
an 800px bound would shrink, is not resized under the effective settings. -/
theorem processOne_settings :
    processOneCompressionSettings
      = { targetSizeKb := 800, maxWidth := 2560 } ∧
    resizeDimensions 1000 700 processOneCompressionSettings.maxWidth
      = { width := 1000, height := 700 } ∧
    resizeDimensions 1000 700 800 ≠ { width := 1000, height := 700 } := by
  refine ⟨rfl, ?_, ?_⟩
  · norm_num [processOneCompressionSettings, compressImageDefaultMaxWidth,
      resizeDimensions]
  · norm_num [resizeDimensions]

/-- C5: the number of encode attempts is at most
`⌈(0.92 - 0.10) / 0.08⌉ + 1 = 12`, for every encoder and target. -/
theorem attempt_count_bound (enc : Encoder) (target : ℚ) :
    (attemptQualities enc target qualityStart).length
      ≤ (Int.ceil (((0.92 : ℚ) - 0.10) / 0.08)).toNat + 1 ∧
    (Int.ceil (((0.92 : ℚ) - 0.10) / 0.08)).toNat + 1 = 12 := by
  have hceil : Int.ceil (((0.92 : ℚ) - 0.10) / 0.08) = 11 := by
    rw [Int.ceil_eq_iff]
    norm_num
  constructor
  · have hbound := attemptQualities_length_le enc target qualityStart
    rw [qualityStart, minQuality, qualityStep] at hbound
    convert hbound using 3
    norm_num
  · rw [hceil]
    rfl

/-- C10: the floor test runs only after each encode, so the attempted
qualities all lie on the sequence 0.92, 0.84, …, and none is ever below 0.04;
an input that stays above the target at every quality is encoded exactly at
0.92, 0.84, …, 0.12 and finally at 0.04, which is strictly below the stated
floor 0.10. -/
theorem attempt_quality_values :
    (∀ (enc : Encoder) (target q' : ℚ), q' ∈ attemptQualities enc target qualityStart →
      (∃ k : ℕ, k ≤ 11 ∧ q' = qualityStart - (k : ℚ) * qualityStep)
        ∧ (0.04 : ℚ) ≤ q') ∧
    attemptQualities bigEncoder 800 qualityStart
      = [0.92, 0.84, 0.76, 0.68, 0.6, 0.52, 0.44, 0.36, 0.28, 0.2, 0.12, 0.04] ∧
    (0.04 : ℚ) < minQuality := by
  refine ⟨?_, ?_, by norm_num [minQuality]⟩
  · intro enc target q' hmem
    obtain ⟨k, hk1, hk2⟩ := attemptQualities_mem enc target qualityStart q' hmem
    have hkle : k ≤ 11 := by
      rcases hk2 with hzero | hlt
      · omega
      · rw [hk1, qualityStart, qualityStep] at hlt
        rw [minQuality] at hlt
        by_contra hgt
        push_neg at hgt
        have hcast : (12 : ℚ) ≤ (k : ℚ) := by
          exact_mod_cast hgt
        nlinarith
    refine ⟨⟨k, hkle, hk1⟩, ?_⟩
    have hcast : (k : ℚ) ≤ 11 := by
      exact_mod_cast hkle
    rw [hk1, qualityStart, qualityStep]
    nlinarith
  · rw [attemptQualities_go _ _ _ 921600 rfl (by norm_num) (by norm_num [minQuality, qualityStart])]
    rw [qualityStart, qualityStep]
    norm_num
    rw [attemptQualities_go _ _ _ 921600 rfl (by norm_num) (by norm_num [minQuality])]
    rw [qualityStep]
    norm_num
    rw [attemptQualities_go _ _ _ 921600 rfl (by norm_num) (by norm_num [minQuality])]
    rw [qualityStep]
    norm_num
    rw [attemptQualities_go _ _ _ 921600 rfl (by norm_num) (by norm_num [minQuality])]
    rw [qualityStep]
    norm_num
    rw [attemptQualities_go _ _ _ 921600 rfl (by norm_num) (by norm_num [minQuality])]
    rw [qualityStep]
    norm_num
    rw [attemptQualities_go _ _ _ 921600 rfl (by norm_num) (by norm_num [minQuality])]
    rw [qualityStep]
    norm_num
    rw [attemptQualities_go _ _ _ 921600 rfl (by norm_num) (by norm_num [minQuality])]
    rw [qualityStep]
    norm_num
    rw [attemptQualities_go _ _ _ 921600 rfl (by norm_num) (by norm_num [minQuality])]
    rw [qualityStep]
    norm_num
    rw [attemptQualities_go _ _ _ 921600 rfl (by norm_num) (by norm_num [minQuality])]
    rw [qualityStep]
    norm_num
    rw [attemptQualities_go _ _ _ 921600 rfl (by norm_num) (by norm_num [minQuality])]
    rw [qualityStep]
    norm_num
    rw [attemptQualities_go _ _ _ 921600 rfl (by norm_num) (by norm_num [minQuality])]
    rw [qualityStep]
    norm_num
    rw [attemptQualities_stop _ _ _ 921600 rfl (by norm_num [minQuality])]

/-- Witness for C5: the bound instantiated at the always-900KB encoder. -/
theorem attempt_count_bound_witness :
    (attemptQualities bigEncoder 800 qualityStart).length
      ≤ (Int.ceil (((0.92 : ℚ) - 0.10) / 0.08)).toNat + 1 ∧
    (Int.ceil (((0.92 : ℚ) - 0.10) / 0.08)).toNat + 1 = 12 :=
  attempt_count_bound bigEncoder 800

/-- Witness for C10: quality 0.92, the head of the attempt list of the
always-900KB encoder, is on the sequence and at least 0.04. -/
theorem attempt_quality_values_witness :
    (∃ k : ℕ, k ≤ 11 ∧ (0.92 : ℚ) = qualityStart - (k : ℚ) * qualityStep)
      ∧ (0.04 : ℚ) ≤ (0.92 : ℚ) :=
  (attempt_quality_values).1 bigEncoder 800 0.92 (by
    rw [attemptQualities_go _ _ _ 921600 rfl (by norm_num)
      (by norm_num [minQuality, qualityStart]), qualityStart]
    exact List.mem_cons_self _ _)

/-! ## Lemmas about the orchestrator -/

/-- Updating the item matching `id` through an id-preserving transform
commutes with looking the item up. -/
theorem find_map_matching (l : List ImageFile) (id : String)
    (f : ImageFile → ImageFile) (hf : ∀ img, (f img).id = img.id) :
    (l.map fun img => if img.id == id then f img else img).find?
        (fun img => img.id == id)
      = (l.find? fun img => img.id == id).map f := by
  induction l with
  | nil => rfl
  | cons a l ih =>
    by_cases hmatch : a.id == id
    · have hfa : ((f a).id == id) = true := by rw [hf]; exact hmatch
      rw [List.map_cons, if_pos hmatch,
        List.find?_cons_of_pos (p := fun img : ImageFile => img.id == id) _ hfa,
        List.find?_cons_of_pos (p := fun img : ImageFile => img.id == id) _ hmatch]
      rfl
    · rw [List.map_cons, if_neg hmatch,
        List.find?_cons_of_neg (p := fun img : ImageFile => img.id == id) _ hmatch,
        List.find?_cons_of_neg (p := fun img : ImageFile => img.id == id) _ hmatch]
      exact ih

/-- Items whose id differs from the updated one survive a matching-update map
unchanged. -/
theorem mem_map_non_matching (l : List ImageFile) (id : String)
    (f : ImageFile → ImageFile) (img : ImageFile) (hmem : img ∈ l)
    (hne : ¬(img.id = id)) :
    img ∈ l.map fun i => if i.id == id then f i else i := by
  have hcond : (img.id == id) = false := beq_eq_false_iff_ne.mpr hne
  simpa [hcond] using
    List.mem_map_of_mem (fun i => if i.id == id then f i else i) hmem


/-- A matching-update map over a list with no matching item is the identity. -/
theorem map_if_no_match (l : List ImageFile) (id : String)
    (f : ImageFile → ImageFile)
    (hall : ∀ img ∈ l, ¬((img.id == id) = true)) :
    (l.map fun img => if img.id == id then f img else img) = l := by
  induction l with
  | nil => rfl
  | cons a l ih =>
    rw [List.map_cons, if_neg (hall a (List.mem_cons_self a l)),
      ih fun x hx => hall x (List.mem_cons_of_mem a hx)]

/-- Looking up the processed id after a successful finish yields the stored
item with the `done` update applied (and the compressed URL it was given is
the counter value at resolution time). -/
theorem findImage_finishSuccess (s : AppState) (id : String) (blob : Blob) :
    findImage (processOneFinishSuccess s id blob) id
      = (findImage s id).map fun img => setDone img blob s.nextUrl := by
  simp only [findImage, processOneFinishSuccess, createUrl]
  exact find_map_matching s.images id _ fun _ => rfl

/-- Looking up the processed id after a failed finish yields the stored item
with the `error` update applied. -/
theorem findImage_finishFailure (s : AppState) (id : String) (msg : String) :
    findImage (processOneFinishFailure s id msg) id
      = (findImage s id).map fun img => setError img msg := by
  simp only [findImage, processOneFinishFailure]
  exact find_map_matching s.images id _ fun _ => rfl

/-- Looking up the id after the analyzer update yields the stored item with
the analysis text applied. -/
theorem findImage_analysisResolve (s : AppState) (id : String) (text : String) :
    findImage (analysisResolve s id text) id
      = (findImage s id).map fun img => setAnalysis img text := by
  simp only [findImage, analysisResolve]
  exact find_map_matching s.images id _ fun _ => rfl

/-- A guarded start is a no-op. -/
theorem processOneStart_of_mem (s : AppState) (id : String)
    (h : id ∈ s.processingQueue) : processOneStart s id = s := by
  rw [processOneStart, if_pos h]

/-- After a start, the id is in the guard set. -/
theorem processOneStart_mem (s : AppState) (id : String) :
    id ∈ (processOneStart s id).processingQueue := by
  by_cases h : id ∈ s.processingQueue
  · rw [processOneStart_of_mem s id h]
    exact h
  · rw [processOneStart, if_neg h]
    exact Finset.mem_insert_self id _

/-! ## Claim theorems: the orchestrator -/

/-- C6: requesting processing for an id already in flight is a no-op (exactly
one compression run is started), the id is added to the guard set on start,
and both the success and the failure resumption (the latter being the
`finally` clause after an exception) remove it. -/
theorem processing_guard (s : AppState) (id : String) (blob : Blob)
    (msg : String) :
    (id ∈ s.processingQueue → processOneStart s id = s) ∧
    (id ∉ s.processingQueue →
      id ∈ (processOneStart s id).processingQueue ∧
      (processOneStart s id).compressStarts = s.compressStarts + 1 ∧
      processOneStart (processOneStart s id) id = processOneStart s id ∧
      (processOneStart (processOneStart s id) id).compressStarts
        = s.compressStarts + 1) ∧
    id ∉ (processOneFinishSuccess s id blob).processingQueue ∧
    id ∉ (processOneFinishFailure s id msg).processingQueue := by
  refine ⟨processOneStart_of_mem s id, ?_, ?_, ?_⟩
  · intro h
    have hmem := processOneStart_mem s id
    have hnoop := processOneStart_of_mem (processOneStart s id) id hmem
    have hcount : (processOneStart s id).compressStarts
        = s.compressStarts + 1 := by
      rw [processOneStart, if_neg h]
    exact ⟨hmem, hcount, hnoop, by rw [hnoop, hcount]⟩
  · simp [processOneFinishSuccess, createUrl, Finset.mem_erase]
  · simp [processOneFinishFailure, Finset.mem_erase]

/-- Witness for C6 on the empty state: the id is in flight after the first
request, the second request changes nothing, and only one compression run has
been started. -/
theorem processing_guard_witness :
    "a" ∈ (processOneStart initialState "a").processingQueue ∧
    processOneStart (processOneStart initialState "a") "a"
      = processOneStart initialState "a" ∧
    (processOneStart (processOneStart initialState "a") "a").compressStarts
      = initialState.compressStarts + 1 := by
  have h := (processing_guard initialState "a" [] "m").2.1
    (Finset.not_mem_empty "a")
  exact ⟨h.1, h.2.2.1, h.2.2.2⟩

/-- C7: an exception from decode/resize/encode is absorbed by the `catch`
branch: the item is recorded `error` with the exception's non-empty message,
its compressed bytes stay unset, and every other item is untouched (the
resumption is a total state update, so nothing propagates to the caller). -/
theorem compress_failure_recorded (s : AppState) (id : String)
    (e : CompressError) (img : ImageFile) (hfind : findImage s id = some img)
    (hc : img.compressed = none) :
    ∃ img', findImage (processOneFinishFailure s id e.message) id = some img' ∧
      img'.status = Status.error ∧
      img'.error = some e.message ∧
      e.message ≠ "" ∧
      img'.compressed = none ∧
      ∀ other ∈ s.images, ¬(other.id = id) →
        other ∈ (processOneFinishFailure s id e.message).images := by
  refine ⟨setError img e.message, ?_, rfl, rfl, ?_, hc, ?_⟩
  · rw [findImage_finishFailure, hfind]
    rfl
  · cases e <;> decide
  · intro other hmem hne
    exact mem_map_non_matching s.images id (setError · e.message) other hmem hne

/-- Witness for C7: a freshly accepted item receives the decode failure. -/
theorem compress_failure_recorded_witness :
    ∃ img', findImage (processOneFinishFailure (handleFilesOne initialState "a" 5)
        "a" CompressError.imageLoadError.message) "a" = some img' ∧
      img'.status = Status.error ∧
      img'.error = some CompressError.imageLoadError.message ∧
      CompressError.imageLoadError.message ≠ "" ∧
      img'.compressed = none ∧
      ∀ other ∈ (handleFilesOne initialState "a" 5).images, ¬(other.id = "a") →
        other ∈ (processOneFinishFailure (handleFilesOne initialState "a" 5)
          "a" CompressError.imageLoadError.message).images :=
  compress_failure_recorded (handleFilesOne initialState "a" 5) "a"
    CompressError.imageLoadError (newImage "a" 0 5) rfl rfl

/-- C8: at every point of an item's lifecycle, compressed bytes are present
exactly when the status is `done`, and then the recorded size is their
length. -/
theorem compressed_iff_done (img : ImageFile) (h : ReachableItem img) :
    (img.compressed.isSome ↔ img.status = Status.done) ∧
    ∀ blob : Blob, img.compressed = some blob →
      img.compressedSize = some blob.length := by
  induction h with
  | new id url size => simp [newImage]
  | start img hr hp ih =>
    have hnone : img.compressed = none := by
      cases hcompress : img.compressed with
      | none => rfl
      | some b =>
        have hdone := ih.1.mp (by rw [hcompress]; rfl)
        rw [hp] at hdone
        exact absurd hdone (by intro hcon; cases hcon)
    constructor
    · simp [setCompressing, hnone]
    · intro blob hblob
      simp [setCompressing, hnone] at hblob
  | finishSuccess img blob url hr hst ih =>
    constructor
    · simp [setDone]
    · intro b hb
      simp only [setDone] at hb ⊢
      rw [Option.some.inj hb]
  | finishFailure img msg hr hst ih =>
    have hnone : img.compressed = none := by
      cases hcompress : img.compressed with
      | none => rfl
      | some b =>
        have hdone := ih.1.mp (by rw [hcompress]; rfl)
        rw [hst] at hdone
        exact absurd hdone (by intro hcon; cases hcon)
    constructor
    · simp [setError, hnone]
    · intro blob hblob
      simp [setError, hnone] at hblob
  | analysis img text hr ih =>
    simpa [setAnalysis] using ih

/-- Witness for C8: a concrete item taken through accept, start, and success
satisfies the iff. -/
theorem compressed_iff_done_witness :
    (setDone (setCompressing (newImage "a" 0 5)) [1, 2] 1).compressed.isSome ↔
      (setDone (setCompressing (newImage "a" 0 5)) [1, 2] 1).status
        = Status.done :=
  (compressed_iff_done _ (ReachableItem.finishSuccess _ [1, 2] 1
    (ReachableItem.start _ (ReachableItem.new "a" 0 5) rfl) rfl)).1

/-- C4 counterexample: when the analyzer call throws internally, `analyzeImage`
catches and resolves with its fixed fallback string, and the `.then` callback
stores that string — the item reaches `done`, but `aiAnalysis` is set to the
fallback rather than left unset. -/
theorem analyzer_failure_sets_fallback :
    (findImage analyzerFailureTrace "a").map ImageFile.status
      = some Status.done ∧
    (findImage analyzerFailureTrace "a").map ImageFile.aiAnalysis
      = some (some analysisFallback) ∧
    (findImage analyzerFailureTrace "a").map ImageFile.aiAnalysis
      ≠ some none := by
  refine ⟨rfl, rfl, ?_⟩
  have h2 : (findImage analyzerFailureTrace "a").map ImageFile.aiAnalysis
      = some (some analysisFallback) := rfl
  rw [h2]
  simp

/-- C4 (amended): when the analyzer call throws internally the item still
reaches `done` (compression succeeded), and its `aiAnalysis` is set to the
fixed fallback string returned by the analyzer's internal catch. -/
theorem analyzer_failure_item_done (s : AppState) (id : String) (blob : Blob)
    (e : String) (img : ImageFile) (hfind : findImage s id = some img) :
    analyzeImage (Except.error e) = analysisFallback ∧
    ∃ img', findImage (analysisResolve (processOneFinishSuccess s id blob) id
        (analyzeImage (Except.error e))) id = some img' ∧
      img'.status = Status.done ∧
      img'.aiAnalysis = some analysisFallback ∧
      img'.compressed = some blob := by
  refine ⟨rfl, setAnalysis (setDone img blob s.nextUrl) analysisFallback,
    ?_, rfl, rfl, rfl⟩
  rw [findImage_analysisResolve, findImage_finishSuccess, hfind]
  rfl

/-- Witness for C4 (amended): the concrete one-item state. -/
theorem analyzer_failure_item_done_witness :
    analyzeImage (Except.error "boom") = analysisFallback ∧
    ∃ img', findImage (analysisResolve
        (processOneFinishSuccess (handleFilesOne initialState "a" 5) "a" [7])
        "a" (analyzeImage (Except.error "boom"))) "a" = some img' ∧
      img'.status = Status.done ∧
      img'.aiAnalysis = some analysisFallback ∧
      img'.compressed = some [7] :=
  analyzer_failure_item_done (handleFilesOne initialState "a" 5) "a" [7]
    "boom" (newImage "a" 0 5) rfl

/-- C9 counterexample: remove the item while compression is in flight; the
late resolution creates the compressed object URL (token 1) with no item left
to own it, and no step — not even a repeated removal — ever revokes it, so the
creation is not paired with a release triggered by the item's removal. -/
theorem url_leak_on_mid_flight_removal :
    1 ∈ removedMidFlightTrace.createdUrls ∧
    1 ∉ removedMidFlightTrace.revokedUrls ∧
    findImage removedMidFlightTrace "a" = none ∧
    (removeImage removedMidFlightTrace "a").revokedUrls
      = removedMidFlightTrace.revokedUrls := by
  refine ⟨?_, ?_, ?_, ?_⟩ <;> decide

/-- C9 (amended): each URL held by an item at the moment of its removal is
revoked exactly once by `removeImage` (and the item is gone afterwards, so a
repeated removal revokes nothing more); but a compression that resolves after
its item was removed creates a fresh URL while leaving the item collection
and the revocation record unchanged, so that URL is never released. -/
theorem url_release_on_removal (s s' : AppState) (id : String)
    (img : ImageFile) (blob : Blob) (hfind : findImage s id = some img)
    (hne : img.compressedUrl ≠ some img.originalUrl) :
    (removeImage s id).revokedUrls.count img.originalUrl
      = s.revokedUrls.count img.originalUrl + 1 ∧
    (∀ u, img.compressedUrl = some u →
      (removeImage s id).revokedUrls.count u = s.revokedUrls.count u + 1) ∧
    findImage (removeImage s id) id = none ∧
    (removeImage (removeImage s id) id).revokedUrls
      = (removeImage s id).revokedUrls ∧
    (findImage s' id = none →
      (processOneFinishSuccess s' id blob).images = s'.images ∧
      s'.nextUrl ∈ (processOneFinishSuccess s' id blob).createdUrls ∧
      (processOneFinishSuccess s' id blob).revokedUrls = s'.revokedUrls) := by
  rw [findImage] at hfind
  have hfilter : findImage (removeImage s id) id = none := by
    rw [findImage, removeImage, hfind]
    cases hcu : img.compressedUrl <;>
    · apply List.find?_eq_none.mpr
      intro x hx
      have hmemf := (List.mem_filter.mp hx).2
      intro hcon
      rw [hcon] at hmemf
      exact Bool.noConfusion hmemf
  refine ⟨?_, ?_, hfilter, ?_, ?_⟩
  · rw [removeImage, hfind]
    cases hcu : img.compressedUrl with
    | none => simp [hcu, revokeUrl, List.count_cons]
    | some u =>
      have hneu : u ≠ img.originalUrl := fun hcon => hne (by rw [hcu, hcon])
      simp [hcu, revokeUrl, List.count_cons, hneu]
  · intro u hu
    rw [removeImage, hfind]
    have hneu : u ≠ img.originalUrl := fun hcon => hne (by rw [hu, hcon])
    have horig : img.originalUrl ≠ u := fun hcon => hneu hcon.symm
    simp [hu, revokeUrl, List.count_cons, horig]
  · rw [findImage] at hfilter
    conv_lhs => rw [removeImage]
    rw [hfilter]
  · intro hnone
    rw [findImage] at hnone
    have hall := List.find?_eq_none.mp hnone
    refine ⟨?_, ?_, rfl⟩
    · simp only [processOneFinishSuccess, createUrl]
      exact map_if_no_match s'.images id _ hall
    · simp only [processOneFinishSuccess, createUrl]
      exact List.mem_cons_self _ _

/-- Witness for C9 (amended): removing a freshly accepted single item revokes
its original URL once, and a late success on a state without the item touches
no image and revokes nothing. -/
theorem url_release_on_removal_witness :
    (removeImage (handleFilesOne initialState "b" 10) "b").revokedUrls.count 0
      = (handleFilesOne initialState "b" 10).revokedUrls.count 0 + 1 ∧
    findImage (removeImage (handleFilesOne initialState "b" 10) "b") "b"
      = none ∧
    (processOneFinishSuccess initialState "b" [5]).images
      = initialState.images ∧
    initialState.nextUrl
      ∈ (processOneFinishSuccess initialState "b" [5]).createdUrls := by
  have h := url_release_on_removal (handleFilesOne initialState "b" 10)
    initialState "b" (newImage "b" 0 10) [5] rfl (by decide)
  have h5 := h.2.2.2.2 rfl
  exact ⟨h.1, h.2.2.1, h5.1, h5.2.1⟩

end Squeeze
